import Mathlib

/-!
Verification of the video-server repository (`src/be/index.ts`, the Hono/Bun
mp4 server, and the generalized file server in `src/unnamed/part_000`).

The HTTP handlers are shallowly embedded: the uploads directory becomes a list
of entries (name, byte content, birthtime), a request becomes the handler's
arguments, and the produced `Response` becomes a record of status, headers and
body.  JavaScript numeric quirks that the range-parsing code depends on
(`parseInt` returning `NaN`, `NaN` propagating through arithmetic and being
rendered as the string "NaN") are modelled by the type `JSNum`.
-/

/-- A JavaScript number as it occurs in the range-handling code: either an
integer or `NaN` (the result of `parseInt` on a non-numeric string).  `NaN`
propagates through arithmetic and prints as "NaN". -/
inductive JSNum where
  | nan : JSNum
  | int : Int → JSNum
deriving DecidableEq, Repr

/-- String interpolation of a JS number (template literals render `NaN` as
"NaN" and integers in decimal). -/
def JSNum.toStr : JSNum → String
  | .nan => "NaN"
  | .int n => toString n

/-- JS subtraction: `NaN` poisons the result. -/
def JSNum.sub : JSNum → JSNum → JSNum
  | .int a, .int b => .int (a - b)
  | _, _ => .nan

/-- JS addition: `NaN` poisons the result. -/
def JSNum.add : JSNum → JSNum → JSNum
  | .int a, .int b => .int (a + b)
  | _, _ => .nan

/-- The ten ASCII digit characters accepted by `parseInt(_, 10)`. -/
def isDig (c : Char) : Bool :=
  ['0', '1', '2', '3', '4', '5', '6', '7', '8', '9'].contains c

/-- Whitespace skipped by `parseInt` before the number (the forms relevant to
this code base; JS also skips some exotic Unicode spaces that cannot occur in
an HTTP Range header). -/
def isWs (c : Char) : Bool :=
  [' ', '\t', '\n', '\r'].contains c

/-- Numeric value of a list of ASCII digit characters, most significant
first: the accumulation loop of `parseInt`. -/
def digitsVal (l : List Char) : Nat :=
  l.foldl (fun a c => 10 * a + (c.toNat - 48)) 0

/-- `startsWithL pat l` tests whether `pat` is an initial segment of `l`. -/
def startsWithL : List Char → List Char → Bool
  | [], _ => true
  | _ :: _, [] => false
  | p :: ps, c :: cs => p = c && startsWithL ps cs

/-- `containsSub pat l` is JavaScript's `l.includes(pat)`: does `pat` occur
contiguously inside `l`? -/
def containsSub (pat : List Char) : List Char → Bool
  | [] => startsWithL pat []
  | c :: rest => startsWithL pat (c :: rest) || containsSub pat rest

/-- `replaceFirst pat l` removes the first occurrence of `pat` from `l`
(JavaScript's `l.replace(pat, "")` with a non-global pattern); `l` is returned
unchanged when `pat` does not occur. -/
def replaceFirst (pat : List Char) : List Char → List Char
  | [] => []
  | c :: rest =>
      if startsWithL pat (c :: rest) then (c :: rest).drop pat.length
      else c :: replaceFirst pat rest

/-- JavaScript's `split("-")`: cut the character list at every dash.  Always
returns at least one (possibly empty) part. -/
def splitDash : List Char → List (List Char)
  | [] => [[]]
  | c :: rest =>
      if c = '-' then [] :: splitDash rest
      else
        match splitDash rest with
        | [] => [[c]]
        | p :: ps => (c :: p) :: ps

/-- `parseInt(s, 10)`: skip leading whitespace, accept an optional sign, then
read the longest run of decimal digits; `NaN` when that run is empty. -/
def parseIntJS (l : List Char) : JSNum :=
  match l.dropWhile isWs with
  | [] => .nan
  | c :: rest =>
      if c = '-' then
        let d := rest.takeWhile isDig
        if d = [] then .nan else .int (-(digitsVal d : Int))
      else if c = '+' then
        let d := rest.takeWhile isDig
        if d = [] then .nan else .int (digitsVal d)
      else
        let d := (c :: rest).takeWhile isDig
        if d = [] then .nan else .int (digitsVal d)

/-- Decimal digit characters of a natural number, most significant first:
how a JS template literal renders the nonnegative number `n`. -/
def natChars (n : Nat) : List Char :=
  if h : n < 10 then [Nat.digitChar n]
  else natChars (n / 10) ++ [Nat.digitChar (n % 10)]
decreasing_by exact Nat.div_lt_self (by omega) (by omega)

/-- Decimal string of a natural number (used for the upload timestamp). -/
def natStr (n : Nat) : String := String.mk (natChars n)

/-- ASCII lower-casing, JavaScript's `toLowerCase` on the strings that occur
here (file extensions): character-wise lowering. -/
def lowerStr (s : String) : String := String.mk (s.data.map Char.toLower)

/-- Helper for `extname`: the suffix of the name starting at its last dot,
or `none` when the name has no dot. -/
def extAfterDot : List Char → Option (List Char)
  | [] => none
  | c :: rest =>
      match extAfterDot rest with
      | some e => some e
      | none => if c = '.' then some (c :: rest) else none

/-- Node's `path.extname` on a bare filename (the names used here never
contain path separators when this is applied): the substring from the last
dot, or "" when there is no dot or the only dot is the leading character of
the name (a dotfile has no extension). -/
def extname (s : String) : String :=
  match s.data with
  | [] => ""
  | c :: rest =>
      if c = '.' then
        match extAfterDot rest with
        | some e => String.mk e
        | none => ""
      else
        match extAfterDot (c :: rest) with
        | some e => String.mk e
        | none => ""

/-- `ALLOWED_EXTENSIONS` of `src/be/index.ts`. -/
def ALLOWED_EXTENSIONS : List String := [".mp4"]

/-- `MAX_FILE_SIZE` of `src/be/index.ts`: 500 * 1024 * 1024 bytes. -/
def MAX_FILE_SIZE : Nat := 500 * 1024 * 1024

/-- The extension check both the listing and the upload endpoint perform:
`ALLOWED_EXTENSIONS.includes(path.extname(name).toLowerCase())`. -/
def extOk (name : String) : Bool :=
  ALLOWED_EXTENSIONS.contains (lowerStr (extname name))

/-- The path-traversal test shared by the delete and stream handlers:
`filename.includes("..") || filename.includes("/") || filename.includes("\\")`. -/
def badName (l : List Char) : Bool :=
  containsSub ['.', '.'] l || containsSub ['/'] l || containsSub ['\\'] l

/-- One entry of the uploads directory: its name, byte content and the
filesystem creation time (`birthtime`).  The entry's size is the length of
its content, as `stat`/`Bun.file(...).size` reports. -/
structure FsEntry where
  name : String
  content : List Nat
  birthtime : Nat
deriving DecidableEq, Repr

/-- `existsSync` / opening a file: the first directory entry carrying the
requested name. -/
def findEntry (fs : List FsEntry) (filename : String) : Option FsEntry :=
  fs.find? (fun f => f.name == filename)

/-- `Bun.write`: overwrite the file when it exists (keeping its creation
time), otherwise create a new entry. -/
def writeFile (fs : List FsEntry) (name : String) (content : List Nat)
    (now : Nat) : List FsEntry :=
  if (fs.find? (fun f => f.name == name)).isSome then
    fs.map (fun f => if f.name == name then ⟨name, content, f.birthtime⟩ else f)
  else
    fs ++ [⟨name, content, now⟩]

/-- A response body: either raw bytes (a streamed file or slice) or a JSON
object whose single string field is recorded (`c.json({error: msg})` or
`c.json({message: msg})`). -/
inductive RBody where
  | bytes : List Nat → RBody
  | json : String → RBody
deriving DecidableEq, Repr

/-- An HTTP response: status code, header list in construction order, body. -/
structure Resp where
  status : Nat
  headers : List (String × String)
  body : RBody
deriving DecidableEq, Repr

/-- Look a header up by name. -/
def Resp.hdr (r : Resp) (k : String) : Option String :=
  (r.headers.find? (fun p => p.1 == k)).map (fun p => p.2)

/-- `ToIntegerOrInfinity` followed by the clamping `Blob.slice` applies to an
index: `NaN` becomes 0; a negative index counts from the end; the result is
clamped to `[0, size]`. -/
def jsToIdx (size : Int) : JSNum → Int
  | .nan => 0
  | .int v => if v < 0 then max (size + v) 0 else min v size

/-- `Blob.slice(s, e)` on the file's bytes (Bun's `file.slice(start, end)`
has these `Blob` semantics, and `.stream()` then yields exactly these
bytes). -/
def sliceBytes (content : List Nat) (s e : JSNum) : List Nat :=
  let sz : Int := content.length
  let a := jsToIdx sz s
  let b := jsToIdx sz e
  (content.take b.toNat).drop a.toNat

/-- `range.replace(/bytes=/, "").split("-")`: the parts of the Range header. -/
def rangeParts (range : String) : List (List Char) :=
  splitDash (replaceFirst ("bytes=").data range.data)

/-- `parseInt(parts[0], 10)` (the first part always exists, `split` never
returns an empty array). -/
def rangeStart (parts : List (List Char)) : JSNum :=
  parseIntJS (parts.headD [])

/-- `parts[1] ? parseInt(parts[1], 10) : fileSize - 1`: the end position,
defaulting to `fileSize - 1` when the second part is missing or empty (both
are falsy in JS). -/
def rangeEnd (fileSize : Nat) (parts : List (List Char)) : JSNum :=
  match parts with
  | _ :: p :: _ =>
      if p = [] then .int ((fileSize : Int) - 1) else parseIntJS p
  | _ => .int ((fileSize : Int) - 1)

/-- The 206 branch of the stream handlers: parse the Range header exactly as
the code does, compute `chunkSize = end - start + 1`, slice the file
(`file.slice(start, end + 1)`) and build the headers. -/
def rangeResponse (content : List Nat) (contentType : String)
    (range : String) : Resp :=
  let parts := rangeParts range
  let start := rangeStart parts
  let endv := rangeEnd content.length parts
  let chunkSize := (endv.sub start).add (.int 1)
  { status := 206
    headers :=
      [("Content-Range",
          "bytes " ++ start.toStr ++ "-" ++ endv.toStr ++ "/" ++
            toString content.length),
       ("Accept-Ranges", "bytes"),
       ("Content-Length", chunkSize.toStr),
       ("Content-Type", contentType)]
    body := .bytes (sliceBytes content start (endv.add (.int 1))) }

/-- The 200 branch: the whole file with its size as `Content-Length`. -/
def fullResponse (content : List Nat) (contentType : String) : Resp :=
  { status := 200
    headers :=
      [("Content-Length", toString content.length),
       ("Content-Type", contentType)]
    body := .bytes content }

/-- `GET /api/stream/:filename` of `src/be/index.ts`: traversal check, then
existence check, then — whenever a Range header is present — the 206 branch
with `Content-Type: video/mp4` hardcoded, else the full file. -/
def streamBe (fs : List FsEntry) (filename : String)
    (range : Option String) : Resp :=
  if badName filename.data then ⟨400, [], .json "Invalid filename"⟩
  else
    match findEntry fs filename with
    | none => ⟨404, [], .json "Video not found"⟩
    | some f =>
        match range with
        | some r => rangeResponse f.content "video/mp4" r
        | none => fullResponse f.content "video/mp4"

/-- A finite fragment of the `mime-types` database consulted by the file
server in `src/unnamed/part_000` (`mime.lookup(path.extname(filename))`,
which lower-cases its argument): the generalized server's allow-listed
extensions, text files, and the common video containers the real database
resolves to `video/*`.  The handler `streamPart` below is parametric in the
resolver, so the theorems about its media-type gating hold for the full
database and do not depend on this table being complete; the table only
instantiates them at concrete inputs. -/
def mimeLookup (ext : String) : Option String :=
  match lowerStr ext with
  | ".mp4" => some "video/mp4"
  | ".webm" => some "video/webm"
  | ".ogg" => some "audio/ogg"
  | ".mov" => some "video/quicktime"
  | ".png" => some "image/png"
  | ".jpg" => some "image/jpeg"
  | ".jpeg" => some "image/jpeg"
  | ".pdf" => some "application/pdf"
  | ".txt" => some "text/plain"
  | ".ogv" => some "video/ogg"
  | ".avi" => some "video/x-msvideo"
  | ".mpeg" => some "video/mpeg"
  | ".mpg" => some "video/mpeg"
  | ".mkv" => some "video/x-matroska"
  | ".m4v" => some "video/x-m4v"
  | ".wmv" => some "video/x-ms-wmv"
  | ".flv" => some "video/x-flv"
  | ".3gp" => some "video/3gpp"
  | _ => none

/-- `GET /api/stream/:filename` of the generalized file server
(`src/unnamed/part_000`): same traversal and existence checks, but the 206
branch runs only when a Range header is present AND the resolved mime type
starts with "video/"; otherwise the whole file is served.  The mime resolver
(`mime.lookup`, an external database) is a parameter, so statements about
the gate hold for whatever the database returns. -/
def streamPart (mimeOf : String → Option String) (fs : List FsEntry)
    (filename : String) (range : Option String) : Resp :=
  if badName filename.data then ⟨400, [], .json "Invalid filename"⟩
  else
    match findEntry fs filename with
    | none => ⟨404, [], .json "File not found"⟩
    | some f =>
        let mimeType := (mimeOf (extname filename)).getD "application/octet-stream"
        match range with
        | some r =>
            if startsWithL ("video/").data mimeType.data then
              rangeResponse f.content mimeType r
            else fullResponse f.content mimeType
        | none => fullResponse f.content mimeType

/-- The stored name generated on upload: `"{Date.now()}-{file.name}"`. -/
def encodeName (displayName : String) (now : Nat) : String :=
  natStr now ++ "-" ++ displayName

/-- The regex replace stripping the stored-name timestamp (pattern: start of
string, one or more digits, then a dash, replaced by the empty string): a name
without such a leading digits-dash segment is returned unchanged. -/
def decodeName (s : String) : String :=
  let d := s.data.takeWhile isDig
  let rest := s.data.dropWhile isDig
  if d ≠ [] ∧ rest.head? = some '-' then String.mk rest.tail else s

/-- `POST /api/upload` of `src/be/index.ts`: reject a missing file field,
then a file over `MAX_FILE_SIZE`, then a disallowed extension — each with
status 400 and without touching the directory; otherwise write
`"{timestamp}-{name}"` and report success. -/
def uploadBe (now : Nat) :
    Option (String × List Nat) → List FsEntry → Resp × List FsEntry
  | none, fs => (⟨400, [], .json "No file provided"⟩, fs)
  | some (name, content), fs =>
      if content.length > MAX_FILE_SIZE then
        (⟨400, [], .json "File too large. Maximum size is 500MB"⟩, fs)
      else if !(extOk name) then
        (⟨400, [], .json "Only MP4 files are allowed"⟩, fs)
      else
        (⟨200, [], .json "File uploaded successfully"⟩,
         writeFile fs (encodeName name now) content now)

/-- `DELETE /api/videos/:filename` of `src/be/index.ts`: traversal check,
then existence check, then `unlink`. -/
def deleteBe (filename : String) (fs : List FsEntry) : Resp × List FsEntry :=
  if badName filename.data then (⟨400, [], .json "Invalid filename"⟩, fs)
  else if (findEntry fs filename).isSome then
    (⟨200, [], .json "Video deleted successfully"⟩,
     fs.filter (fun f => f.name != filename))
  else (⟨404, [], .json "Video not found"⟩, fs)

/-- One element of the `GET /api/videos` response. -/
structure VideoFile where
  filename : String
  originalName : String
  size : Nat
  uploadDate : Nat
  url : String
deriving DecidableEq, Repr

/-- The listing projection of one directory entry: metadata straight from
the filesystem entry, the display name recovered by `decodeName`. -/
def mkVideo (f : FsEntry) : VideoFile :=
  ⟨f.name, decodeName f.name, f.content.length, f.birthtime,
   "/videos/uploads/" ++ f.name⟩

/-- `GET /api/videos` of `src/be/index.ts`: read the directory, keep the
entries with an allow-listed extension, derive each entry's metadata, and
sort by upload date descending (`(a, b) => b.uploadDate - a.uploadDate`). -/
def listVideos (fs : List FsEntry) : List VideoFile :=
  (((fs.filter (fun f => extOk f.name)).map mkVideo).mergeSort
    (fun a b => decide (b.uploadDate ≤ a.uploadDate)))

/-- A nonempty string of decimal digits together with its value: the shape of
the `<start>` / `<end>` segments of a well-formed Range header. -/
abbrev DigitStr (a : String) (n : Nat) : Prop :=
  a.data ≠ [] ∧ (∀ c ∈ a.data, isDig c = true) ∧ digitsVal a.data = n

/-- Concrete fixture: a stored mp4 of exactly 1000 bytes (the spec's worked
range-resolution example). -/
def fileK : FsEntry :=
  ⟨"1700000000000-clip.mp4", List.replicate 1000 0, 42⟩

/-- A directory holding only `fileK`. -/
def fsK : List FsEntry := [fileK]

/-- Concrete fixture: a directory holding a file whose extension is not in
the allow-list. -/
def fsTxt : List FsEntry := [⟨"notes.txt", [7, 7, 7], 5⟩]

/-- Concrete fixture: a stored pdf (a non-video media type). -/
def fsPdf : List FsEntry := [⟨"1-a.pdf", [1, 2], 0⟩]

/-- Concrete fixture: a three-byte mp4, for the out-of-bounds range
examples. -/
def fsW9 : List FsEntry := [⟨"a.mp4", [10, 20, 30], 7⟩]

/-- Concrete fixture: a stored ogv container, which the mime database
resolves to a video type even though the extension is outside the upload
allow-list. -/
def fsOgv : List FsEntry := [⟨"clip.ogv", [1, 2, 3, 4], 0⟩]

/-! ### Helper lemmas about the string machinery -/

theorem takeWhile_append_all (p : Char → Bool) (l r : List Char)
    (h : ∀ c ∈ l, p c = true) :
    (l ++ r).takeWhile p = l ++ r.takeWhile p := by
  induction l with
  | nil => simp
  | cons c cs ih =>
      simp [List.takeWhile_cons, h c (by simp), ih (fun c hc => h c (by simp [hc]))]

theorem dropWhile_append_all (p : Char → Bool) (l r : List Char)
    (h : ∀ c ∈ l, p c = true) :
    (l ++ r).dropWhile p = r.dropWhile p := by
  induction l with
  | nil => simp
  | cons c cs ih =>
      simp only [List.cons_append, List.dropWhile_cons, h c (by simp)]
      exact ih (fun c hc => h c (by simp [hc]))

theorem takeWhile_all (p : Char → Bool) (l : List Char)
    (h : ∀ c ∈ l, p c = true) : l.takeWhile p = l := by
  have := takeWhile_append_all p l [] h
  simpa using this

theorem isDig_ne_dash {c : Char} (h : isDig c = true) : c ≠ '-' := by
  simp only [isDig, List.contains, List.elem_eq_mem, List.mem_cons,
    decide_eq_true_eq] at h
  simp only [List.not_mem_nil, or_false] at h
  rcases h with rfl | rfl | rfl | rfl | rfl | rfl | rfl | rfl | rfl | rfl <;> decide

theorem isDig_ne_plus {c : Char} (h : isDig c = true) : c ≠ '+' := by
  simp only [isDig, List.contains, List.elem_eq_mem, List.mem_cons,
    decide_eq_true_eq] at h
  simp only [List.not_mem_nil, or_false] at h
  rcases h with rfl | rfl | rfl | rfl | rfl | rfl | rfl | rfl | rfl | rfl <;> decide

theorem isDig_not_ws {c : Char} (h : isDig c = true) : isWs c = false := by
  simp only [isDig, List.contains, List.elem_eq_mem, List.mem_cons,
    decide_eq_true_eq] at h
  simp only [List.not_mem_nil, or_false] at h
  rcases h with rfl | rfl | rfl | rfl | rfl | rfl | rfl | rfl | rfl | rfl <;> decide

/-- `parseInt` on a nonempty all-digit string yields its decimal value. -/
theorem parseIntJS_digits (l : List Char) (h1 : l ≠ [])
    (h2 : ∀ c ∈ l, isDig c = true) :
    parseIntJS l = .int (digitsVal l) := by
  obtain ⟨c, rest, rfl⟩ : ∃ c rest, l = c :: rest := by
    cases l with
    | nil => exact absurd rfl h1
    | cons c rest => exact ⟨c, rest, rfl⟩
  have hc : isDig c = true := h2 c (by simp)
  have hdrop : (c :: rest).dropWhile isWs = c :: rest := by
    simp [List.dropWhile, isDig_not_ws hc]
  unfold parseIntJS
  rw [hdrop]
  simp only [isDig_ne_dash hc, isDig_ne_plus hc, if_false]
  rw [takeWhile_all isDig (c :: rest) h2]
  simp

theorem startsWithL_append_self (p r : List Char) :
    startsWithL p (p ++ r) = true := by
  induction p with
  | nil => simp [startsWithL]
  | cons c cs ih => simpa [startsWithL] using ih

theorem startsWithL_iff (p l : List Char) :
    startsWithL p l = true ↔ ∃ r, l = p ++ r := by
  constructor
  · intro h
    induction p generalizing l with
    | nil => exact ⟨l, rfl⟩
    | cons c cs ih =>
        cases l with
        | nil => simp [startsWithL] at h
        | cons d ds =>
            simp only [startsWithL, Bool.and_eq_true, decide_eq_true_eq] at h
            obtain ⟨rfl, h2⟩ := h
            obtain ⟨r, rfl⟩ := ih ds h2
            exact ⟨r, rfl⟩
  · rintro ⟨r, rfl⟩
    exact startsWithL_append_self p r

theorem replaceFirst_strip (p r : List Char) (hp : p ≠ []) :
    replaceFirst p (p ++ r) = r := by
  obtain ⟨c, cs, rfl⟩ : ∃ c cs, p = c :: cs := by
    cases p with
    | nil => exact absurd rfl hp
    | cons c cs => exact ⟨c, cs, rfl⟩
  show replaceFirst (c :: cs) (c :: (cs ++ r)) = r
  unfold replaceFirst
  rw [if_pos (by simpa using startsWithL_append_self (c :: cs) r)]
  simpa using List.drop_left cs r

theorem splitDash_ne_nil (l : List Char) : splitDash l ≠ [] := by
  induction l with
  | nil => simp [splitDash]
  | cons c cs ih =>
      unfold splitDash
      by_cases hc : c = '-'
      · simp [hc]
      · simp only [hc, if_false]
        cases h : splitDash cs with
        | nil => exact absurd h ih
        | cons p ps => simp

theorem splitDash_no_dash (l : List Char) (h : ∀ c ∈ l, c ≠ '-') :
    splitDash l = [l] := by
  induction l with
  | nil => simp [splitDash]
  | cons c cs ih =>
      unfold splitDash
      rw [if_neg (h c (by simp))]
      rw [ih (fun c hc => h c (by simp [hc]))]

theorem splitDash_append (a b : List Char) (h : ∀ c ∈ a, c ≠ '-') :
    splitDash (a ++ '-' :: b) = a :: splitDash b := by
  induction a with
  | nil => simp [splitDash]
  | cons c cs ih =>
      show splitDash (c :: (cs ++ '-' :: b)) = (c :: cs) :: splitDash b
      conv_lhs => rw [splitDash]
      rw [if_neg (h c (by simp))]
      rw [ih (fun c hc => h c (by simp [hc]))]


theorem toString_intCast (n : Nat) : toString ((n : Int)) = toString n := rfl

/-- A generic unfolding of `rangeResponse` in terms of its stages. -/
theorem rangeResponse_eq (content : List Nat) (ct range : String) :
    rangeResponse content ct range =
      { status := 206
        headers :=
          [("Content-Range",
              "bytes " ++ (rangeStart (rangeParts range)).toStr ++ "-" ++
                (rangeEnd content.length (rangeParts range)).toStr ++ "/" ++
                toString content.length),
           ("Accept-Ranges", "bytes"),
           ("Content-Length",
              (((rangeEnd content.length (rangeParts range)).sub
                  (rangeStart (rangeParts range))).add (.int 1)).toStr),
           ("Content-Type", ct)]
        body := .bytes (sliceBytes content (rangeStart (rangeParts range))
                  ((rangeEnd content.length (rangeParts range)).add (.int 1))) } := rfl

/-- Header shape `"bytes=<a>-<b>"`: the parts are `a` and `b` whenever
neither contains a dash. -/
theorem rangeParts_pair (a b : String) (ha : ∀ c ∈ a.data, c ≠ '-')
    (hb : ∀ c ∈ b.data, c ≠ '-') :
    rangeParts ("bytes=" ++ a ++ "-" ++ b) = [a.data, b.data] := by
  unfold rangeParts
  have hdata : ("bytes=" ++ a ++ "-" ++ b).data
      = ("bytes=").data ++ (a.data ++ '-' :: b.data) := by
    rw [String.data_append, String.data_append, String.data_append]
    simp
  rw [hdata, replaceFirst_strip _ _ (by decide), splitDash_append _ _ ha,
      splitDash_no_dash _ hb]

/-- Header shape `"bytes=<a>-"` (end omitted). -/
theorem rangeParts_open (a : String) (ha : ∀ c ∈ a.data, c ≠ '-') :
    rangeParts ("bytes=" ++ a ++ "-") = [a.data, []] := by
  unfold rangeParts
  have hdata : ("bytes=" ++ a ++ "-").data
      = ("bytes=").data ++ (a.data ++ '-' :: []) := by
    rw [String.data_append, String.data_append]
    simp
  rw [hdata, replaceFirst_strip _ _ (by decide), splitDash_append _ _ ha]
  rfl

/-- Header shape `"bytes=-<b>"` (start omitted, suffix form). -/
theorem rangeParts_suffix (b : String) (hb : ∀ c ∈ b.data, c ≠ '-') :
    rangeParts ("bytes=-" ++ b) = [[], b.data] := by
  unfold rangeParts
  have hdata : ("bytes=-" ++ b).data
      = ("bytes=").data ++ ('-' :: b.data) := by
    rw [String.data_append]
    rfl
  have hsplit : splitDash ('-' :: b.data) = [] :: splitDash b.data := by
    conv_lhs => rw [splitDash]
    simp
  rw [hdata, replaceFirst_strip _ _ (by decide), hsplit,
      splitDash_no_dash _ hb]

/-- Evaluation of the 206 branch on a header of the form
`"bytes=<start>-<end>"` with both segments nonempty digit strings. -/
theorem rangeResponse_digit_pair (content : List Nat) (ct a b : String)
    (s e : Nat) (ha : DigitStr a s) (hb : DigitStr b e) :
    rangeResponse content ct ("bytes=" ++ a ++ "-" ++ b) =
      { status := 206
        headers :=
          [("Content-Range",
              "bytes " ++ toString s ++ "-" ++ toString e ++ "/" ++
                toString content.length),
           ("Accept-Ranges", "bytes"),
           ("Content-Length", JSNum.toStr (.int ((e : Int) - (s : Int) + 1))),
           ("Content-Type", ct)]
        body := .bytes (sliceBytes content (.int (s : Int))
                  (.int ((e : Int) + 1))) } := by
  obtain ⟨ha1, ha2, ha3⟩ := ha
  obtain ⟨hb1, hb2, hb3⟩ := hb
  have hp := rangeParts_pair a b (fun c hc => isDig_ne_dash (ha2 c hc))
    (fun c hc => isDig_ne_dash (hb2 c hc))
  have hstart : rangeStart (rangeParts ("bytes=" ++ a ++ "-" ++ b)) = .int (s : Int) := by
    rw [hp]
    show parseIntJS a.data = _
    rw [parseIntJS_digits a.data ha1 ha2, ha3]
  have hend : rangeEnd content.length (rangeParts ("bytes=" ++ a ++ "-" ++ b))
      = .int (e : Int) := by
    rw [hp]
    show (if b.data = [] then _ else parseIntJS b.data) = _
    rw [if_neg hb1, parseIntJS_digits b.data hb1 hb2, hb3]
  rw [rangeResponse_eq, hstart, hend]
  simp [JSNum.sub, JSNum.add, JSNum.toStr, toString_intCast]

/-- Evaluation of the 206 branch on a header of the form `"bytes=<start>-"`:
the end defaults to `fileSize - 1`. -/
theorem rangeResponse_open (content : List Nat) (ct a : String) (s : Nat)
    (ha : DigitStr a s) :
    rangeResponse content ct ("bytes=" ++ a ++ "-") =
      { status := 206
        headers :=
          [("Content-Range",
              "bytes " ++ toString s ++ "-" ++
                JSNum.toStr (.int ((content.length : Int) - 1)) ++ "/" ++
                toString content.length),
           ("Accept-Ranges", "bytes"),
           ("Content-Length",
              JSNum.toStr (.int ((content.length : Int) - 1 - (s : Int) + 1))),
           ("Content-Type", ct)]
        body := .bytes (sliceBytes content (.int (s : Int))
                  (.int ((content.length : Int) - 1 + 1))) } := by
  obtain ⟨ha1, ha2, ha3⟩ := ha
  have hp := rangeParts_open a (fun c hc => isDig_ne_dash (ha2 c hc))
  have hstart : rangeStart (rangeParts ("bytes=" ++ a ++ "-")) = .int (s : Int) := by
    rw [hp]
    show parseIntJS a.data = _
    rw [parseIntJS_digits a.data ha1 ha2, ha3]
  have hend : rangeEnd content.length (rangeParts ("bytes=" ++ a ++ "-"))
      = .int ((content.length : Int) - 1) := by
    rw [hp]
    rfl
  rw [rangeResponse_eq, hstart, hend]
  simp [JSNum.sub, JSNum.add, JSNum.toStr, toString_intCast]

/-- Evaluation of the 206 branch on a suffix-form header `"bytes=-<N>"`:
the empty start segment parses to `NaN`, which poisons `chunkSize` and shows
up verbatim in the Content-Range and Content-Length headers, while the slice
treats it as position 0. -/
theorem rangeResponse_suffix (content : List Nat) (ct b : String) (e : Nat)
    (hb : DigitStr b e) :
    rangeResponse content ct ("bytes=-" ++ b) =
      { status := 206
        headers :=
          [("Content-Range",
              "bytes " ++ "NaN" ++ "-" ++ toString e ++ "/" ++
                toString content.length),
           ("Accept-Ranges", "bytes"),
           ("Content-Length", "NaN"),
           ("Content-Type", ct)]
        body := .bytes (sliceBytes content .nan (.int ((e : Int) + 1))) } := by
  obtain ⟨hb1, hb2, hb3⟩ := hb
  have hp := rangeParts_suffix b (fun c hc => isDig_ne_dash (hb2 c hc))
  have hstart : rangeStart (rangeParts ("bytes=-" ++ b)) = .nan := by
    rw [hp]
    rfl
  have hend : rangeEnd content.length (rangeParts ("bytes=-" ++ b))
      = .int (e : Int) := by
    rw [hp]
    show (if b.data = [] then _ else parseIntJS b.data) = _
    rw [if_neg hb1, parseIntJS_digits b.data hb1 hb2, hb3]
  rw [rangeResponse_eq, hstart, hend]
  simp [JSNum.sub, JSNum.add, JSNum.toStr, toString_intCast]

/-! ### Helper lemmas about the handlers and the storage model -/

theorem streamBe_bad (fs : List FsEntry) (name : String) (r : Option String)
    (hn : badName name.data = true) :
    streamBe fs name r = ⟨400, [], .json "Invalid filename"⟩ := by
  unfold streamBe
  rw [if_pos hn]

theorem streamBe_notFound (fs : List FsEntry) (name : String) (r : Option String)
    (hn : badName name.data = false) (hf : findEntry fs name = none) :
    streamBe fs name r = ⟨404, [], .json "Video not found"⟩ := by
  unfold streamBe
  rw [if_neg (by simp [hn]), hf]

theorem streamBe_none (fs : List FsEntry) (name : String) (f : FsEntry)
    (hn : badName name.data = false) (hf : findEntry fs name = some f) :
    streamBe fs name none = fullResponse f.content "video/mp4" := by
  unfold streamBe
  rw [if_neg (by simp [hn]), hf]

theorem streamBe_range (fs : List FsEntry) (name : String) (f : FsEntry)
    (r : String) (hn : badName name.data = false)
    (hf : findEntry fs name = some f) :
    streamBe fs name (some r) = rangeResponse f.content "video/mp4" r := by
  unfold streamBe
  rw [if_neg (by simp [hn]), hf]

theorem streamPart_bad (mimeOf : String → Option String) (fs : List FsEntry)
    (name : String) (r : Option String) (hn : badName name.data = true) :
    streamPart mimeOf fs name r = ⟨400, [], .json "Invalid filename"⟩ := by
  unfold streamPart
  rw [if_pos hn]

theorem streamPart_range_video (mimeOf : String → Option String)
    (fs : List FsEntry) (name : String) (f : FsEntry) (r : String)
    (hn : badName name.data = false) (hf : findEntry fs name = some f)
    (hm : startsWithL ("video/").data
      ((mimeOf (extname name)).getD "application/octet-stream").data = true) :
    streamPart mimeOf fs name (some r) =
      rangeResponse f.content
        ((mimeOf (extname name)).getD "application/octet-stream") r := by
  unfold streamPart
  rw [if_neg (by simp [hn]), hf]
  simp only [hm, if_true]

theorem streamPart_range_nonvideo (mimeOf : String → Option String)
    (fs : List FsEntry) (name : String) (f : FsEntry) (r : String)
    (hn : badName name.data = false) (hf : findEntry fs name = some f)
    (hm : startsWithL ("video/").data
      ((mimeOf (extname name)).getD "application/octet-stream").data = false) :
    streamPart mimeOf fs name (some r) =
      fullResponse f.content
        ((mimeOf (extname name)).getD "application/octet-stream") := by
  unfold streamPart
  rw [if_neg (by simp [hn]), hf]
  simp only [hm]
  rfl

theorem deleteBe_bad (fs : List FsEntry) (name : String)
    (hn : badName name.data = true) :
    deleteBe name fs = (⟨400, [], .json "Invalid filename"⟩, fs) := by
  unfold deleteBe
  rw [if_pos hn]

theorem deleteBe_found (fs : List FsEntry) (name : String)
    (hn : badName name.data = false) (hf : (findEntry fs name).isSome = true) :
    deleteBe name fs = (⟨200, [], .json "Video deleted successfully"⟩,
      fs.filter (fun f => f.name != name)) := by
  unfold deleteBe
  rw [if_neg (by simp [hn]), if_pos hf]

theorem deleteBe_notFound (fs : List FsEntry) (name : String)
    (hn : badName name.data = false) (hf : (findEntry fs name).isSome = false) :
    deleteBe name fs = (⟨404, [], .json "Video not found"⟩, fs) := by
  unfold deleteBe
  rw [if_neg (by simp [hn]), if_neg (by simp [hf])]

/-- After deleting `name`, no entry of the directory carries that name. -/
theorem findEntry_filter_ne (fs : List FsEntry) (name : String) :
    findEntry (fs.filter (fun f => f.name != name)) name = none := by
  unfold findEntry
  rw [List.find?_eq_none]
  intro f hf
  have := (List.mem_filter.mp hf).2
  simp only [bne_iff_ne, ne_eq, decide_eq_true_eq] at this ⊢
  simpa using this

/-- The slice window for in-range start and past-the-end stop: the bytes from
`s` to the end of the file. -/
theorem sliceBytes_int_clamp (content : List Nat) (s e1 : Nat)
    (hs : s ≤ content.length) (he : content.length ≤ e1) :
    sliceBytes content (.int (s : Int)) (.int (e1 : Int)) = content.drop s := by
  simp only [sliceBytes, jsToIdx]
  rw [if_neg (by omega), if_neg (by omega)]
  have h1 : (min (s : Int) (content.length : Int)).toNat = s := by omega
  have h2 : (min (e1 : Int) (content.length : Int)).toNat = content.length := by
    omega
  rw [h1, h2, List.take_length]

/-- The slice window when the start is `NaN`: `NaN` is coerced to 0, so the
slice is an initial segment of the file. -/
theorem sliceBytes_nan (content : List Nat) (x : Int) (hx : 0 ≤ x) :
    sliceBytes content .nan (.int x) = content.take (min x.toNat content.length) := by
  simp only [sliceBytes, jsToIdx]
  rw [if_neg (by omega)]
  have h1 : (min x (content.length : Int)).toNat = min x.toNat content.length := by
    omega
  rw [h1]
  simp

theorem containsSub_iff (pat l : List Char) :
    containsSub pat l = true ↔ ∃ p q, l = p ++ pat ++ q := by
  induction l with
  | nil =>
      constructor
      · intro h
        simp only [containsSub] at h
        obtain ⟨r, hr⟩ := (startsWithL_iff pat []).mp h
        have hp : pat = [] := by
          cases List.append_eq_nil.mp hr.symm with
          | intro h1 h2 => exact h1
        exact ⟨[], [], by simp [hp]⟩
      · rintro ⟨p, q, hpq⟩
        obtain ⟨h1, h2⟩ := List.append_eq_nil.mp hpq.symm
        obtain ⟨h3, h4⟩ := List.append_eq_nil.mp h1
        simp [containsSub, h4, startsWithL]
  | cons c cs ih =>
      constructor
      · intro h
        simp only [containsSub, Bool.or_eq_true] at h
        cases h with
        | inl h =>
            obtain ⟨r, hr⟩ := (startsWithL_iff pat (c :: cs)).mp h
            exact ⟨[], r, by simp [hr]⟩
        | inr h =>
            obtain ⟨p, q, hpq⟩ := ih.mp h
            exact ⟨c :: p, q, by simp [hpq]⟩
      · rintro ⟨p, q, hpq⟩
        simp only [containsSub, Bool.or_eq_true]
        cases p with
        | nil =>
            left
            exact (startsWithL_iff pat (c :: cs)).mpr ⟨q, by simpa using hpq⟩
        | cons d ds =>
            right
            apply ih.mpr
            refine ⟨ds, q, ?_⟩
            simp only [List.cons_append, List.cons.injEq] at hpq
            exact hpq.2

theorem containsSub_singleton (a : Char) (l : List Char) :
    containsSub [a] l = true ↔ a ∈ l := by
  rw [containsSub_iff]
  constructor
  · rintro ⟨p, q, rfl⟩
    simp
  · intro h
    obtain ⟨p, q, rfl⟩ := List.append_of_mem h
    exact ⟨p, q, by simp⟩

/-- The sanitizer rejects precisely the names containing a ".." segment or a
path separator. -/
theorem badName_iff (l : List Char) :
    badName l = true ↔
      (∃ p q, l = p ++ ['.', '.'] ++ q) ∨ '/' ∈ l ∨ '\\' ∈ l := by
  unfold badName
  simp only [Bool.or_eq_true]
  rw [containsSub_iff, containsSub_singleton, containsSub_singleton, or_assoc]

/-- A member of the listing is exactly the projection of a directory entry
with an allow-listed extension. -/
theorem mem_listVideos (fs : List FsEntry) (v : VideoFile) :
    v ∈ listVideos fs ↔ ∃ g, g ∈ fs ∧ extOk g.name = true ∧ v = mkVideo g := by
  unfold listVideos
  rw [List.mem_mergeSort]
  constructor
  · intro hv
    obtain ⟨g, hg, rfl⟩ := List.mem_map.mp hv
    have hm := List.mem_filter.mp hg
    exact ⟨g, hm.1, hm.2, rfl⟩
  · rintro ⟨g, hg, he, rfl⟩
    exact List.mem_map.mpr ⟨g, List.mem_filter.mpr ⟨hg, he⟩, rfl⟩

/-- The listing is a permutation of the filtered, projected directory. -/
theorem listVideos_perm (fs : List FsEntry) :
    (listVideos fs).Perm ((fs.filter (fun f => extOk f.name)).map mkVideo) :=
  List.mergeSort_perm _ _

/-- The listing is sorted by upload date, most recent first. -/
theorem listVideos_sorted (fs : List FsEntry) :
    (listVideos fs).Pairwise (fun a b => b.uploadDate ≤ a.uploadDate) := by
  unfold listVideos
  refine List.Pairwise.imp ?_
    (List.sorted_mergeSort ?_ ?_ ((fs.filter (fun f => extOk f.name)).map mkVideo))
  · intro a b hab
    simpa using hab
  · intro a b c h1 h2
    simp only [decide_eq_true_eq] at h1 h2 ⊢
    omega
  · intro a b
    rcases Nat.le_total b.uploadDate a.uploadDate with h | h <;> simp [h]

theorem digitChar_isDig : ∀ m, m < 10 → isDig (Nat.digitChar m) = true := by
  decide

theorem natChars_digits (n : Nat) : ∀ c ∈ natChars n, isDig c = true := by
  induction n using Nat.strong_induction_on with
  | _ n ih =>
      intro c hc
      rw [natChars] at hc
      by_cases h : n < 10
      · rw [dif_pos h] at hc
        simp only [List.mem_singleton] at hc
        subst hc
        exact digitChar_isDig n h
      · rw [dif_neg h] at hc
        simp only [List.mem_append, List.mem_singleton] at hc
        cases hc with
        | inl hc =>
            exact ih (n / 10) (Nat.div_lt_self (by omega) (by omega)) c hc
        | inr hc =>
            subst hc
            exact digitChar_isDig _ (Nat.mod_lt n (by omega))

theorem natChars_ne_nil (n : Nat) : natChars n ≠ [] := by
  rw [natChars]
  by_cases h : n < 10
  · rw [dif_pos h]
    simp
  · rw [dif_neg h]
    simp

theorem encodeName_data (d : String) (t : Nat) :
    (encodeName d t).data = natChars t ++ '-' :: d.data := by
  unfold encodeName natStr
  rw [String.data_append, String.data_append]
  simp

/-- Decoding a freshly encoded stored name recovers the display name. -/
theorem decode_encode (d : String) (t : Nat) :
    decodeName (encodeName d t) = d := by
  simp only [decodeName]
  rw [encodeName_data,
      takeWhile_append_all isDig (natChars t) ('-' :: d.data) (natChars_digits t),
      dropWhile_append_all isDig (natChars t) ('-' :: d.data) (natChars_digits t)]
  have h1 : List.takeWhile isDig ('-' :: d.data) = [] := by
    rw [List.takeWhile_cons, if_neg (by decide)]
  have h2 : List.dropWhile isDig ('-' :: d.data) = '-' :: d.data := by
    rw [List.dropWhile_cons, if_neg (by decide)]
  rw [h1, h2]
  rw [if_pos ⟨by simpa using natChars_ne_nil t, rfl⟩]
  rfl

/-- A stored name with no digits-dash lead-in decodes to itself. -/
theorem decode_id (s : String)
    (h : ¬(s.data.takeWhile isDig ≠ [] ∧
      (s.data.dropWhile isDig).head? = some '-')) :
    decodeName s = s := by
  simp only [decodeName]
  rw [if_neg h]

theorem uploadBe_missing (now : Nat) (fs : List FsEntry) :
    uploadBe now none fs = (⟨400, [], .json "No file provided"⟩, fs) := rfl

theorem uploadBe_tooLarge (now : Nat) (name : String) (content : List Nat)
    (fs : List FsEntry) (h : content.length > MAX_FILE_SIZE) :
    uploadBe now (some (name, content)) fs =
      (⟨400, [], .json "File too large. Maximum size is 500MB"⟩, fs) := by
  simp only [uploadBe]
  rw [if_pos h]

theorem uploadBe_badExt (now : Nat) (name : String) (content : List Nat)
    (fs : List FsEntry) (h : content.length ≤ MAX_FILE_SIZE)
    (he : extOk name = false) :
    uploadBe now (some (name, content)) fs =
      (⟨400, [], .json "Only MP4 files are allowed"⟩, fs) := by
  simp only [uploadBe]
  rw [if_neg (by omega), if_pos (by simp [he])]

theorem uploadBe_success (now : Nat) (name : String) (content : List Nat)
    (fs : List FsEntry) (h : content.length ≤ MAX_FILE_SIZE)
    (he : extOk name = true) :
    uploadBe now (some (name, content)) fs =
      (⟨200, [], .json "File uploaded successfully"⟩,
       writeFile fs (encodeName name now) content now) := by
  simp only [uploadBe]
  rw [if_neg (by omega), if_neg (by simp [he])]

/-! ### The claims -/

/-- C4: the filename validation used by both the delete and the stream
endpoint rejects, with HTTP 400 and body "Invalid filename", exactly the
names containing a ".." segment or a "/" or "\" separator; every other name
passes (in particular the rejection status 400 never occurs for them, so
"1700000000000-clip.mp4" is accepted), and for rejected names the response
is the same for every directory state and the directory is untouched — the
check happens before any filesystem path is built from the client name. -/
theorem claim_C4_sanitizer :
    (∀ s : String, badName s.data = true ↔
      ((∃ p q, s.data = p ++ ['.', '.'] ++ q) ∨ '/' ∈ s.data ∨ '\\' ∈ s.data)) ∧
    (∀ fs (name : String) r, badName name.data = true →
      streamBe fs name r = ⟨400, [], .json "Invalid filename"⟩ ∧
      deleteBe name fs = (⟨400, [], .json "Invalid filename"⟩, fs)) ∧
    (∀ fs (name : String) r, badName name.data = false →
      (streamBe fs name r).status ≠ 400 ∧ (deleteBe name fs).1.status ≠ 400) ∧
    (badName ("../../etc/passwd").data = true ∧
     badName ("a/b.mp4").data = true ∧
     badName ("a\\b.mp4").data = true ∧
     badName ("1700000000000-clip.mp4").data = false) := by
  refine ⟨fun s => badName_iff s.data, ?_, ?_, by decide⟩
  · intro fs name r hn
    exact ⟨streamBe_bad fs name r hn, deleteBe_bad fs name hn⟩
  · intro fs name r hn
    constructor
    · cases hf : findEntry fs name with
      | none => rw [streamBe_notFound fs name r hn hf]; simp
      | some f =>
          cases r with
          | none => rw [streamBe_none fs name f hn hf]; simp [fullResponse]
          | some rr =>
              rw [streamBe_range fs name f rr hn hf, rangeResponse_eq]
              simp
    · cases hf : (findEntry fs name).isSome with
      | true => rw [deleteBe_found fs name hn hf]; simp
      | false => rw [deleteBe_notFound fs name hn hf]; simp

/-- C4 witness: the sanitizer outcomes at the spec's four sample names, and
the 400 short-circuit of both endpoints on a traversal name over the
concrete directory `fsK`. -/
theorem claim_C4_sanitizer_witness :
    (streamBe fsK "../../etc/passwd" none = ⟨400, [], .json "Invalid filename"⟩ ∧
     deleteBe "../../etc/passwd" fsK = (⟨400, [], .json "Invalid filename"⟩, fsK)) ∧
    ((streamBe fsK "1700000000000-clip.mp4" none).status ≠ 400 ∧
     (deleteBe "1700000000000-clip.mp4" fsK).1.status ≠ 400) :=
  ⟨claim_C4_sanitizer.2.1 fsK "../../etc/passwd" none (by decide),
   claim_C4_sanitizer.2.2.1 fsK "1700000000000-clip.mp4" none (by decide)⟩

/-- C5: the stored name generated by an accepted upload is exactly
`"{timestamp}-{displayName}"`, decoding strips exactly one leading digit run
plus dash (so decode ∘ encode is the identity for every display name and
timestamp), and a stored name with no such digits-dash lead-in decodes to
itself. -/
theorem claim_C5_identity_roundtrip :
    (∀ d t, decodeName (encodeName d t) = d) ∧
    (∀ d t, encodeName d t = natStr t ++ "-" ++ d) ∧
    (∀ now name content fs,
      content.length ≤ MAX_FILE_SIZE → extOk name = true →
      (uploadBe now (some (name, content)) fs).2 =
        writeFile fs (encodeName name now) content now) ∧
    (∀ s : String,
      ¬(s.data.takeWhile isDig ≠ [] ∧
        (s.data.dropWhile isDig).head? = some '-') →
      decodeName s = s) := by
  refine ⟨decode_encode, fun d t => rfl, ?_, decode_id⟩
  intro now name content fs h he
  rw [uploadBe_success now name content fs h he]

/-- C5 witness: the round trip at a concrete display name and timestamp, an
accepted upload storing under the encoded name, and the defensive identity
on a name without the digits-dash lead-in. -/
theorem claim_C5_identity_roundtrip_witness :
    decodeName (encodeName "clip.mp4" 1700000000000) = "clip.mp4" ∧
    (uploadBe 1700000000000 (some ("clip.mp4", [1, 2, 3])) []).2 =
      writeFile [] (encodeName "clip.mp4" 1700000000000) [1, 2, 3] 1700000000000 ∧
    decodeName "clip.mp4" = "clip.mp4" :=
  ⟨claim_C5_identity_roundtrip.1 "clip.mp4" 1700000000000,
   claim_C5_identity_roundtrip.2.2.1 1700000000000 "clip.mp4" [1, 2, 3] []
     (by decide) (by decide),
   claim_C5_identity_roundtrip.2.2.2 "clip.mp4" (by decide)⟩

/-- C6: an upload is rejected with status 400 when the multipart file field
is missing, when the file exceeds the fixed 500 MiB maximum, or when the
name's extension is not allow-listed; in each case the directory is returned
unchanged — no file is created. -/
theorem claim_C6_upload_gating :
    MAX_FILE_SIZE = 500 * 1024 * 1024 ∧
    (∀ now fs, uploadBe now none fs = (⟨400, [], .json "No file provided"⟩, fs)) ∧
    (∀ now (name : String) (content : List Nat) fs,
      content.length > MAX_FILE_SIZE →
      (uploadBe now (some (name, content)) fs).1.status = 400 ∧
      (uploadBe now (some (name, content)) fs).2 = fs) ∧
    (∀ now (name : String) (content : List Nat) fs,
      extOk name = false →
      (uploadBe now (some (name, content)) fs).1.status = 400 ∧
      (uploadBe now (some (name, content)) fs).2 = fs) := by
  refine ⟨rfl, fun now fs => rfl, ?_, ?_⟩
  · intro now name content fs h
    rw [uploadBe_tooLarge now name content fs h]
    exact ⟨rfl, rfl⟩
  · intro now name content fs he
    by_cases h : content.length > MAX_FILE_SIZE
    · rw [uploadBe_tooLarge now name content fs h]
      exact ⟨rfl, rfl⟩
    · rw [uploadBe_badExt now name content fs (by omega) he]
      exact ⟨rfl, rfl⟩

/-- C6 witness: uploading `doc.exe` (disallowed extension) is rejected and
creates nothing. -/
theorem claim_C6_upload_gating_witness :
    extOk "doc.exe" = false ∧
    (uploadBe 0 (some ("doc.exe", [1])) []).1.status = 400 ∧
    (uploadBe 0 (some ("doc.exe", [1])) []).2 = [] :=
  ⟨by decide,
   (claim_C6_upload_gating.2.2.2 0 "doc.exe" [1] [] (by decide)).1,
   (claim_C6_upload_gating.2.2.2 0 "doc.exe" [1] [] (by decide)).2⟩

set_option maxRecDepth 40000 in
/-- C1: for a stream request on an existing stored file (with a name passing
the sanitizer, which runs first): no Range header gives status 200 with the
whole file and Content-Length = totalSize; a header "bytes=s-e" (e optionally
omitted, defaulting to totalSize - 1) gives status 206 with Content-Range
"bytes s-e/totalSize", Accept-Ranges "bytes" and Content-Length = e - s + 1,
with no validation of s against e or the file size — arbitrary digit values
are passed straight through to the slice (a negative start cannot even be
expressed, because a "-" is consumed as the separator).  The concrete block
is the spec's totalSize = 1000 example. -/
theorem claim_C1_range_resolution :
    (∀ fs (name : String) f, badName name.data = false →
      findEntry fs name = some f →
      streamBe fs name none =
        { status := 200
          headers := [("Content-Length", toString f.content.length),
                      ("Content-Type", "video/mp4")]
          body := .bytes f.content }) ∧
    (∀ fs (name : String) f (a b : String) (s e : Nat),
      badName name.data = false → findEntry fs name = some f →
      DigitStr a s → DigitStr b e →
      streamBe fs name (some ("bytes=" ++ a ++ "-" ++ b)) =
        { status := 206
          headers :=
            [("Content-Range",
                "bytes " ++ toString s ++ "-" ++ toString e ++ "/" ++
                  toString f.content.length),
             ("Accept-Ranges", "bytes"),
             ("Content-Length", JSNum.toStr (.int ((e : Int) - (s : Int) + 1))),
             ("Content-Type", "video/mp4")]
          body := .bytes (sliceBytes f.content (.int (s : Int))
                    (.int ((e : Int) + 1))) }) ∧
    (∀ fs (name : String) f (a : String) (s : Nat),
      badName name.data = false → findEntry fs name = some f → DigitStr a s →
      streamBe fs name (some ("bytes=" ++ a ++ "-")) =
        { status := 206
          headers :=
            [("Content-Range",
                "bytes " ++ toString s ++ "-" ++
                  JSNum.toStr (.int ((f.content.length : Int) - 1)) ++ "/" ++
                  toString f.content.length),
             ("Accept-Ranges", "bytes"),
             ("Content-Length",
                JSNum.toStr (.int ((f.content.length : Int) - 1 - (s : Int) + 1))),
             ("Content-Type", "video/mp4")]
          body := .bytes (sliceBytes f.content (.int (s : Int))
                    (.int ((f.content.length : Int) - 1 + 1))) }) ∧
    ((streamBe fsK "1700000000000-clip.mp4" none).status = 200 ∧
     (streamBe fsK "1700000000000-clip.mp4" none).hdr "Content-Length"
       = some "1000" ∧
     (streamBe fsK "1700000000000-clip.mp4" (some "bytes=0-99")).status = 206 ∧
     (streamBe fsK "1700000000000-clip.mp4" (some "bytes=0-99")).hdr
       "Content-Range" = some "bytes 0-99/1000" ∧
     (streamBe fsK "1700000000000-clip.mp4" (some "bytes=0-99")).hdr
       "Accept-Ranges" = some "bytes" ∧
     (streamBe fsK "1700000000000-clip.mp4" (some "bytes=0-99")).hdr
       "Content-Length" = some "100" ∧
     (streamBe fsK "1700000000000-clip.mp4" (some "bytes=500-")).status = 206 ∧
     (streamBe fsK "1700000000000-clip.mp4" (some "bytes=500-")).hdr
       "Content-Range" = some "bytes 500-999/1000" ∧
     (streamBe fsK "1700000000000-clip.mp4" (some "bytes=500-")).hdr
       "Content-Length" = some "500") := by
  refine ⟨?_, ?_, ?_, by decide⟩
  · intro fs name f hn hf
    rw [streamBe_none fs name f hn hf]
    rfl
  · intro fs name f a b s e hn hf ha hb
    rw [streamBe_range fs name f _ hn hf,
        rangeResponse_digit_pair f.content "video/mp4" a b s e ha hb]
  · intro fs name f a s hn hf ha
    rw [streamBe_range fs name f _ hn hf,
        rangeResponse_open f.content "video/mp4" a s ha]

set_option maxRecDepth 40000 in
/-- C1 witness: the general conjuncts applied to the 1000-byte fixture with
ranges 0-99 and no header. -/
theorem claim_C1_range_resolution_witness :
    streamBe fsK "1700000000000-clip.mp4" (some ("bytes=" ++ "0" ++ "-" ++ "99")) =
      { status := 206
        headers :=
          [("Content-Range",
              "bytes " ++ toString (0 : Nat) ++ "-" ++ toString (99 : Nat) ++
                "/" ++ toString fileK.content.length),
           ("Accept-Ranges", "bytes"),
           ("Content-Length",
              JSNum.toStr (.int (((99 : Nat) : Int) - ((0 : Nat) : Int) + 1))),
           ("Content-Type", "video/mp4")]
        body := .bytes (sliceBytes fileK.content (.int ((0 : Nat) : Int))
                  (.int (((99 : Nat) : Int) + 1))) } ∧
    streamBe fsK "1700000000000-clip.mp4" none =
      { status := 200
        headers := [("Content-Length", toString fileK.content.length),
                    ("Content-Type", "video/mp4")]
        body := .bytes fileK.content } :=
  ⟨claim_C1_range_resolution.2.1 fsK "1700000000000-clip.mp4" fileK "0" "99" 0 99
     (by decide) (by decide) (by decide) (by decide),
   claim_C1_range_resolution.1 fsK "1700000000000-clip.mp4" fileK
     (by decide) (by decide)⟩

/-- C9: for a Range "bytes=s-e" on an existing file with 0 ≤ s < totalSize
and e ≥ totalSize, the response still has status 206, declares
Content-Length = e - s + 1, while the body is the clamped slice holding only
totalSize - s bytes — strictly fewer than declared. -/
theorem claim_C9_overlong_range (fs : List FsEntry) (name : String)
    (f : FsEntry) (a b : String) (s e : Nat)
    (hn : badName name.data = false) (hf : findEntry fs name = some f)
    (ha : DigitStr a s) (hb : DigitStr b e)
    (hs : s < f.content.length) (he : f.content.length ≤ e) :
    (streamBe fs name (some ("bytes=" ++ a ++ "-" ++ b))).status = 206 ∧
    (streamBe fs name (some ("bytes=" ++ a ++ "-" ++ b))).hdr "Content-Length"
      = some (toString ((e : Int) - (s : Int) + 1)) ∧
    (streamBe fs name (some ("bytes=" ++ a ++ "-" ++ b))).body
      = .bytes (f.content.drop s) ∧
    (f.content.drop s).length = f.content.length - s ∧
    ((f.content.length : Int) - (s : Int)) < (e : Int) - (s : Int) + 1 := by
  have h := streamBe_range fs name f ("bytes=" ++ a ++ "-" ++ b) hn hf
  rw [rangeResponse_digit_pair f.content "video/mp4" a b s e ha hb] at h
  have hslice : sliceBytes f.content (.int (s : Int)) (.int ((e : Int) + 1))
      = f.content.drop s := by
    have hcast : ((e : Int) + 1) = (((e + 1 : Nat)) : Int) := by push_cast; ring
    rw [hcast]
    exact sliceBytes_int_clamp f.content s (e + 1) (by omega) (by omega)
  rw [h, hslice]
  refine ⟨rfl, ?_, rfl, by simp, by omega⟩
  simp [Resp.hdr, List.find?, JSNum.toStr]

/-- C9 witness: a three-byte file asked for "bytes=1-5" answers 206 with
Content-Length 5 but a two-byte body. -/
theorem claim_C9_overlong_range_witness :
    (streamBe fsW9 "a.mp4" (some ("bytes=" ++ "1" ++ "-" ++ "5"))).status = 206 ∧
    (streamBe fsW9 "a.mp4" (some ("bytes=" ++ "1" ++ "-" ++ "5"))).hdr
      "Content-Length" = some (toString ((5 : Int) - (1 : Int) + 1)) ∧
    (streamBe fsW9 "a.mp4" (some ("bytes=" ++ "1" ++ "-" ++ "5"))).body
      = .bytes ([10, 20, 30].drop 1) := by
  have h := claim_C9_overlong_range fsW9 "a.mp4" ⟨"a.mp4", [10, 20, 30], 7⟩
    "1" "5" 1 5 (by decide) (by decide) (by decide) (by decide)
    (by decide) (by decide)
  exact ⟨h.1, h.2.1, h.2.2.1⟩

/-- C10: a suffix-form header "bytes=-N" on an existing file is neither
honored as "the final N bytes" nor rejected: the empty start segment parses
to NaN, the status is still 206 (not 400 or 416), "NaN" appears verbatim in
the Content-Range and Content-Length header values, and the body actually
served is the clamped slice file.slice(NaN → 0, N + 1) — the FIRST
min(N + 1, totalSize) bytes of the file (when N < totalSize that is N + 1
bytes, not the requested N). -/
theorem claim_C10_nan_suffix_range (fs : List FsEntry) (name : String)
    (f : FsEntry) (b : String) (e : Nat)
    (hn : badName name.data = false) (hf : findEntry fs name = some f)
    (hb : DigitStr b e) :
    (streamBe fs name (some ("bytes=-" ++ b))).status = 206 ∧
    (streamBe fs name (some ("bytes=-" ++ b))).status ≠ 400 ∧
    (streamBe fs name (some ("bytes=-" ++ b))).status ≠ 416 ∧
    (streamBe fs name (some ("bytes=-" ++ b))).hdr "Content-Range"
      = some ("bytes " ++ "NaN" ++ "-" ++ toString e ++ "/" ++
          toString f.content.length) ∧
    (streamBe fs name (some ("bytes=-" ++ b))).hdr "Content-Length"
      = some "NaN" ∧
    (streamBe fs name (some ("bytes=-" ++ b))).body
      = .bytes (f.content.take (min (e + 1) f.content.length)) ∧
    (e < f.content.length →
      (f.content.take (min (e + 1) f.content.length)).length = e + 1 ∧
      e + 1 ≠ e) := by
  have h := streamBe_range fs name f ("bytes=-" ++ b) hn hf
  rw [rangeResponse_suffix f.content "video/mp4" b e hb] at h
  have hslice : sliceBytes f.content .nan (.int ((e : Int) + 1))
      = f.content.take (min (e + 1) f.content.length) := by
    rw [sliceBytes_nan f.content ((e : Int) + 1) (by omega)]
    have htn : ((e : Int) + 1).toNat = e + 1 := by omega
    rw [htn]
  rw [h, hslice]
  refine ⟨rfl, by simp, by simp, ?_, ?_, rfl, ?_⟩
  · simp [Resp.hdr, List.find?]
  · simp [Resp.hdr, List.find?]
  · intro hlt
    have hlen : (f.content.take (min (e + 1) f.content.length)).length
        = min (min (e + 1) f.content.length) f.content.length := by simp
    exact ⟨by omega, by omega⟩

/-- C10 witness: "bytes=-2" on the three-byte fixture gives 206, NaN in both
headers, and the first three bytes as body. -/
theorem claim_C10_nan_suffix_range_witness :
    (streamBe fsW9 "a.mp4" (some ("bytes=-" ++ "2"))).status = 206 ∧
    (streamBe fsW9 "a.mp4" (some ("bytes=-" ++ "2"))).hdr "Content-Length"
      = some "NaN" ∧
    (streamBe fsW9 "a.mp4" (some ("bytes=-" ++ "2"))).hdr "Content-Range"
      = some ("bytes " ++ "NaN" ++ "-" ++ toString (2 : Nat) ++ "/" ++
          toString ([10, 20, 30] : List Nat).length) ∧
    (streamBe fsW9 "a.mp4" (some ("bytes=-" ++ "2"))).body
      = .bytes (([10, 20, 30] : List Nat).take (min (2 + 1) 3)) := by
  have h := claim_C10_nan_suffix_range fsW9 "a.mp4" ⟨"a.mp4", [10, 20, 30], 7⟩
    "2" 2 (by decide) (by decide) (by decide)
  exact ⟨h.1, h.2.2.2.2.1, h.2.2.2.1, h.2.2.2.2.2.1⟩

/-- C2 counterexample: in `src/be/index.ts` the stream handler applies no
media-type gate at all — a Range request on an existing stored file whose
media type is not streamable ("notes.txt" resolves to "text/plain", not a
video type) is still answered 206, where the claim requires FullContent with
status 200. -/
theorem claim_C2_counterexample :
    extOk "notes.txt" = false ∧
    mimeLookup (extname "notes.txt") = some "text/plain" ∧
    startsWithL ("video/").data ("text/plain").data = false ∧
    (findEntry fsTxt "notes.txt").isSome = true ∧
    (streamBe fsTxt "notes.txt" (some "bytes=0-0")).status = 206 ∧
    (streamBe fsTxt "notes.txt" (some "bytes=0-0")).status ≠ 200 := by
  decide

/-- C2 (amended): the media-type gating holds for the generalized file
server of `src/unnamed/part_000`, and for every mime resolver (hence in
particular the full `mime-types` database): a Range request on an existing
file whose resolved mime type does not start with "video/" returns
FullContent (status 200, entire file), and one whose resolved type is a
video type returns 206; the mp4 server of `src/be/index.ts` applies no such
gate and answers every Range request on an existing file with 206. -/
theorem claim_C2_media_type_gating (mimeOf : String → Option String)
    (fs : List FsEntry) (name : String) (f : FsEntry) (r : String)
    (hn : badName name.data = false) (hf : findEntry fs name = some f) :
    (startsWithL ("video/").data
        ((mimeOf (extname name)).getD "application/octet-stream").data
          = false →
      streamPart mimeOf fs name (some r) =
        fullResponse f.content
          ((mimeOf (extname name)).getD "application/octet-stream") ∧
      (streamPart mimeOf fs name (some r)).status = 200 ∧
      (streamPart mimeOf fs name (some r)).body = .bytes f.content) ∧
    (startsWithL ("video/").data
        ((mimeOf (extname name)).getD "application/octet-stream").data
          = true →
      (streamPart mimeOf fs name (some r)).status = 206) ∧
    (streamBe fs name (some r)).status = 206 := by
  refine ⟨?_, ?_, ?_⟩
  · intro hm
    have h := streamPart_range_nonvideo mimeOf fs name f r hn hf hm
    rw [h]
    exact ⟨rfl, rfl, rfl⟩
  · intro hm
    rw [streamPart_range_video mimeOf fs name f r hn hf hm, rangeResponse_eq]
  · rw [streamBe_range fs name f r hn hf, rangeResponse_eq]

/-- C2 witness, instantiating the resolver with the concrete database
fragment: a stored pdf under the generalized server ignores the Range header
and returns the whole file with 200; a stored ogv (resolved "video/ogg")
gets 206 there; and the mp4 server answers the pdf request with 206. -/
theorem claim_C2_media_type_gating_witness :
    (streamPart mimeLookup fsPdf "1-a.pdf" (some "bytes=0-1")).status = 200 ∧
    (streamPart mimeLookup fsPdf "1-a.pdf" (some "bytes=0-1")).body
      = .bytes [1, 2] ∧
    (streamPart mimeLookup fsOgv "clip.ogv" (some "bytes=0-1")).status = 206 ∧
    (streamBe fsPdf "1-a.pdf" (some "bytes=0-1")).status = 206 := by
  have h := claim_C2_media_type_gating mimeLookup fsPdf "1-a.pdf"
    ⟨"1-a.pdf", [1, 2], 0⟩ "bytes=0-1" (by decide) (by decide)
  have h1 := h.1 (by decide)
  have hv := (claim_C2_media_type_gating mimeLookup fsOgv "clip.ogv"
    ⟨"clip.ogv", [1, 2, 3, 4], 0⟩ "bytes=0-1" (by decide) (by decide)).2.1
    (by decide)
  exact ⟨h1.2.1, h1.2.2, hv, h.2.2⟩

/-- C3 counterexample: a physically present file with a non-allow-listed
extension is omitted by the listing, but it is NOT invisible to the stream
and delete endpoints: streaming it returns its content with 200 (not 404)
and deleting it succeeds with 200 and actually removes it. -/
theorem claim_C3_counterexample :
    extOk "notes.txt" = false ∧
    (findEntry fsTxt "notes.txt").isSome = true ∧
    listVideos fsTxt = [] ∧
    (streamBe fsTxt "notes.txt" none).status = 200 ∧
    (streamBe fsTxt "notes.txt" none).status ≠ 404 ∧
    (streamBe fsTxt "notes.txt" none).body = .bytes [7, 7, 7] ∧
    (deleteBe "notes.txt" fsTxt).1.status = 200 ∧
    (deleteBe "notes.txt" fsTxt).2 = [] := by
  refine ⟨by decide, by decide, ?_, by decide, by decide, by decide, by decide,
    by decide⟩
  unfold listVideos
  have hfil : fsTxt.filter (fun f => extOk f.name) = [] := by decide
  rw [hfil]
  simp

/-- C3 (amended): a file whose extension is outside the allow-list is
invisible to list() only; the stream and delete endpoints do not check
extensions and operate on any existing file whose name passes the
sanitizer. -/
theorem claim_C3_extension_visibility (fs : List FsEntry) (name : String)
    (he : extOk name = false) :
    (∀ v ∈ listVideos fs, v.filename ≠ name) ∧
    (badName name.data = false → ∀ f, findEntry fs name = some f →
      (streamBe fs name none).status = 200 ∧
      (deleteBe name fs).1.status = 200) := by
  constructor
  · intro v hv hcontra
    obtain ⟨g, hg, hge, rfl⟩ := (mem_listVideos fs v).mp hv
    have hgname : g.name = name := hcontra
    rw [hgname] at hge
    exact absurd hge (by simp [he])
  · intro hn f hf
    constructor
    · rw [streamBe_none fs name f hn hf]
      rfl
    · have hs : (findEntry fs name).isSome = true := by rw [hf]; rfl
      rw [deleteBe_found fs name hn hs]

/-- C3 witness: the amended statement at the concrete text file. -/
theorem claim_C3_extension_visibility_witness :
    (streamBe fsTxt "notes.txt" none).status = 200 ∧
    (deleteBe "notes.txt" fsTxt).1.status = 200 := by
  have h := (claim_C3_extension_visibility fsTxt "notes.txt" (by decide)).2
    (by decide) ⟨"notes.txt", [7, 7, 7], 5⟩ (by decide)
  exact ⟨h.1, h.2⟩

/-- C7: for a name passing the sanitizer (remove sanitizes before the
existence check, per §4.2 of the spec), remove deletes the entry and
succeeds with 200 when a file of that name exists and returns 404 Video not
found when it does not; hence a second remove of the same name returns 404
(deletion is not idempotent at the API level) and the listing taken after
the deletion no longer contains the name. -/
theorem claim_C7_delete_semantics (fs : List FsEntry) (name : String)
    (hn : badName name.data = false) :
    ((findEntry fs name).isSome = true →
      (deleteBe name fs).1.status = 200 ∧
      (deleteBe name ((deleteBe name fs).2)).1 =
        ⟨404, [], .json "Video not found"⟩ ∧
      (∀ v ∈ listVideos ((deleteBe name fs).2), v.filename ≠ name)) ∧
    ((findEntry fs name).isSome = false →
      deleteBe name fs = (⟨404, [], .json "Video not found"⟩, fs)) := by
  constructor
  · intro hf
    have hdel := deleteBe_found fs name hn hf
    have hsnd : (deleteBe name fs).2 = fs.filter (fun f => f.name != name) := by
      rw [hdel]
    have hfst : (deleteBe name fs).1.status = 200 := by
      rw [hdel]
    refine ⟨hfst, ?_, ?_⟩
    · rw [hsnd]
      have h2 : (findEntry (fs.filter (fun f => f.name != name)) name).isSome
          = false := by
        rw [findEntry_filter_ne]
        rfl
      rw [deleteBe_notFound _ name hn h2]
    · rw [hsnd]
      intro v hv hcontra
      obtain ⟨g, hg, hge, rfl⟩ := (mem_listVideos _ v).mp hv
      have hgname : g.name = name := hcontra
      have hne := (List.mem_filter.mp hg).2
      rw [hgname] at hne
      simp at hne
  · intro hf
    exact deleteBe_notFound fs name hn hf

/-- C7 witness: deleting the stored clip succeeds; a second delete of the
same name answers 404. -/
theorem claim_C7_delete_semantics_witness :
    (deleteBe "1700000000000-clip.mp4" fsK).1.status = 200 ∧
    (deleteBe "1700000000000-clip.mp4"
      ((deleteBe "1700000000000-clip.mp4" fsK).2)).1 =
      ⟨404, [], .json "Video not found"⟩ := by
  have h := (claim_C7_delete_semantics fsK "1700000000000-clip.mp4"
    (by decide)).1 (by decide)
  exact ⟨h.1, h.2.1⟩

/-- C8: list() is a pure function of the current directory contents: it
contains exactly the projections of the entries whose extension is in the
allow-list (each carrying the entry's size and creation time as read at call
time, the decoded display name, and the public URL), as a permutation of the
filtered directory, ordered by creation time descending. -/
theorem claim_C8_listing (fs : List FsEntry) :
    (listVideos fs).Perm ((fs.filter (fun f => extOk f.name)).map mkVideo) ∧
    (∀ v : VideoFile, v ∈ listVideos fs ↔
      ∃ g, g ∈ fs ∧ extOk g.name = true ∧ v = mkVideo g) ∧
    (listVideos fs).Pairwise (fun a b => b.uploadDate ≤ a.uploadDate) ∧
    (∀ g : FsEntry, mkVideo g =
      ⟨g.name, decodeName g.name, g.content.length, g.birthtime,
       "/videos/uploads/" ++ g.name⟩) :=
  ⟨listVideos_perm fs, mem_listVideos fs, listVideos_sorted fs, fun g => rfl⟩
